import Mathlib

set_option maxRecDepth 4000

/-!
Verification of the line-metrics engine of Prompt-Analyzer (src/extension.ts).

The source is TypeScript; the engine is a pure per-line pipeline:
`normalize` (regex rewriting), a family of metric extractors
(`shannon`, `caseSwitchRate`, `simpleCompressLen`, `countSteps`, token
splitting), threshold-based flag evaluation, weighted score and severity
aggregation (`computeMetrics`), and emission filtering
(`publishDiagnostics`).

Modelling conventions:
* Strings are modelled as Lean `String` / `List Char`; all test inputs are
  ASCII, so JavaScript's UTF-16 `length` coincides with the character count.
* JavaScript numbers on the values reached by these metrics are exact
  rational computations, so metric values are modelled in `ℚ`.
* `Math.sqrt`/`Math.log2` (used only in the step-excess threshold) are
  transcendental, so that single threshold is modelled in `ℝ`; no claim
  depends on its value.
* Shannon entropy (`shannon`) is real-valued; no claim constrains its
  value, and the flag evaluator only reads it from the line record, so the
  record carries entropy as a `ℚ` parameter supplied at record-creation
  time (`mkLineData`), matching the fact that the flagging pass consumes a
  previously computed value.
* The global-regex `replace`/`match` loops are implemented as left-to-right
  scanners; a fuel argument equal to the list length makes the recursion
  structural (every successful match consumes at least one character, so
  the fuel never runs out).
-/

namespace PromptAnalyzer

/-- JavaScript `\w` character class (used by `/\w+/g` and `/\w|\s/g`). -/
def isWordChar (c : Char) : Bool := c.isAlphanum || c = '_'

/-- JavaScript `\s` character class restricted to its ASCII members. -/
def isJsSpace (c : Char) : Bool :=
  c = ' ' || c = '\t' || c = '\n' || c = '\r' || c = '\x0b' || c = '\x0c'

/-- The backquote character, one of the three emphasis delimiters. -/
def backquoteChar : Char := Char.ofNat 96

/-- Opening curly brace. -/
def lbrace : Char := Char.ofNat 123

/-- Closing curly brace. -/
def rbrace : Char := Char.ofNat 125

/-- One attempted match of `LINK_RE` (regex `\[([^\]]+)\]\([^)]+\)`) at the
head of the list.  On success returns the captured label (the `$1`
replacement) and the remainder of the input after the match.  The two
character classes exclude their closing delimiter, so the greedy match is
the maximal run and the regex is deterministic. -/
def linkAt : List Char → Option (List Char × List Char)
  | '[' :: rest =>
    let label := rest.takeWhile (fun c => c ≠ ']')
    match rest.dropWhile (fun c => c ≠ ']') with
    | ']' :: '(' :: r2 =>
      if label.isEmpty then none
      else
        let url := r2.takeWhile (fun c => c ≠ ')')
        match r2.dropWhile (fun c => c ≠ ')') with
        | ')' :: r3 => if url.isEmpty then none else some (label, r3)
        | _ => none
    | _ => none
  | _ => none

/-- Global replacement `line.replace(LINK_RE, '$1')`, scanning left to
right; `fuel` is initialised to the input length. -/
def replaceLinksGo : ℕ → List Char → List Char
  | 0, l => l
  | _ + 1, [] => []
  | fuel + 1, c :: cs =>
    match linkAt (c :: cs) with
    | some (label, rest) => label ++ replaceLinksGo fuel rest
    | none => c :: replaceLinksGo fuel cs

/-- `line.replace(LINK_RE, '$1')`. -/
def replaceLinks (l : List Char) : List Char := replaceLinksGo l.length l

/-- One attempted match of `EMPHASIS_RE` (regex `(\*\*|__|backquote)`,
alternatives tried in order) at the head of the list; returns the rest of
the input after the match (the replacement is empty). -/
def emphAt : List Char → Option (List Char)
  | '*' :: '*' :: r => some r
  | '_' :: '_' :: r => some r
  | c :: r => if c = backquoteChar then some r else none
  | [] => none

/-- Global replacement `.replace(EMPHASIS_RE, '')`. -/
def replaceEmphGo : ℕ → List Char → List Char
  | 0, l => l
  | _ + 1, [] => []
  | fuel + 1, c :: cs =>
    match emphAt (c :: cs) with
    | some rest => replaceEmphGo fuel rest
    | none => c :: replaceEmphGo fuel cs

/-- `.replace(EMPHASIS_RE, '')`. -/
def replaceEmph (l : List Char) : List Char := replaceEmphGo l.length l

/-- Character class `[A-Za-z0-9_:-]` of `PLACEHOLDER_RE`. -/
def isPlaceholderChar (c : Char) : Bool :=
  c.isAlphanum || c = '_' || c = ':' || c = '-'

/-- Match of the suffix `[A-Za-z0-9_:-]+[}]?}` of `PLACEHOLDER_RE`: a
non-empty identifier run, then either `}}` (the optional `[}]?` fires) or a
single `}` (after backtracking on `[}]?`).  Returns the rest of the input
after the match. -/
def placeholderBody (r : List Char) : Option (List Char) :=
  let ident := r.takeWhile isPlaceholderChar
  if ident.isEmpty then none
  else
    match r.dropWhile isPlaceholderChar with
    | c1 :: c2 :: r3 =>
      if c1 = rbrace then (if c2 = rbrace then some r3 else some (c2 :: r3)) else none
    | [c1] => if c1 = rbrace then some [] else none
    | [] => none

/-- One attempted match of `PLACEHOLDER_RE` (regex
`\{[{]?[A-Za-z0-9_:-]+[}]?}`) at the head of the list.  If a second `{`
follows the first, the greedy `[{]?` consumes it; backtracking to the empty
option cannot succeed because `{` is not an identifier character. -/
def placeholderAt (l : List Char) : Option (List Char) :=
  match l with
  | c :: rest =>
    if c = lbrace then
      match rest with
      | c2 :: r2 => if c2 = lbrace then placeholderBody r2 else placeholderBody rest
      | [] => none
    else none
  | [] => none

/-- The canonical replacement token for placeholders. -/
def varMarker : List Char := "<VAR>".data

/-- Global replacement `.replace(PLACEHOLDER_RE, '<VAR>')`. -/
def replacePlaceholdersGo : ℕ → List Char → List Char
  | 0, l => l
  | _ + 1, [] => []
  | fuel + 1, c :: cs =>
    match placeholderAt (c :: cs) with
    | some rest => varMarker ++ replacePlaceholdersGo fuel rest
    | none => c :: replacePlaceholdersGo fuel cs

/-- `.replace(PLACEHOLDER_RE, '<VAR>')`. -/
def replacePlaceholders (l : List Char) : List Char := replacePlaceholdersGo l.length l

/-- The normalizer `normalize` of extension.ts: link labels substituted,
emphasis delimiters removed, placeholders collapsed to `<VAR>`, in that
order. -/
def normalize (s : String) : String :=
  String.mk (replacePlaceholders (replaceEmph (replaceLinks s.data)))

/-- Whether `LINK_RE` matches anywhere in the input. -/
def containsLinkMatch : List Char → Bool
  | [] => false
  | c :: cs => (linkAt (c :: cs)).isSome || containsLinkMatch cs

/-- Whether `EMPHASIS_RE` matches anywhere in the input. -/
def containsEmphMatch : List Char → Bool
  | [] => false
  | c :: cs => (emphAt (c :: cs)).isSome || containsEmphMatch cs

/-- Whether `PLACEHOLDER_RE` matches anywhere in the input. -/
def containsPlaceholderMatch : List Char → Bool
  | [] => false
  | c :: cs => (placeholderAt (c :: cs)).isSome || containsPlaceholderMatch cs

lemma replaceLinksGo_id (fuel : ℕ) :
    ∀ l : List Char, containsLinkMatch l = false → replaceLinksGo fuel l = l := by
  induction fuel with
  | zero => intro l _; rfl
  | succ n ih =>
    intro l h
    cases l with
    | nil => rfl
    | cons c cs =>
      simp only [containsLinkMatch, Bool.or_eq_false_iff] at h
      obtain ⟨h1, h2⟩ := h
      cases hl : linkAt (c :: cs) with
      | some r => rw [hl] at h1; simp at h1
      | none => simp only [replaceLinksGo, hl]; rw [ih cs h2]

lemma replaceEmphGo_id (fuel : ℕ) :
    ∀ l : List Char, containsEmphMatch l = false → replaceEmphGo fuel l = l := by
  induction fuel with
  | zero => intro l _; rfl
  | succ n ih =>
    intro l h
    cases l with
    | nil => rfl
    | cons c cs =>
      simp only [containsEmphMatch, Bool.or_eq_false_iff] at h
      obtain ⟨h1, h2⟩ := h
      cases hl : emphAt (c :: cs) with
      | some r => rw [hl] at h1; simp at h1
      | none => simp only [replaceEmphGo, hl]; rw [ih cs h2]

lemma replacePlaceholdersGo_id (fuel : ℕ) :
    ∀ l : List Char, containsPlaceholderMatch l = false → replacePlaceholdersGo fuel l = l := by
  induction fuel with
  | zero => intro l _; rfl
  | succ n ih =>
    intro l h
    cases l with
    | nil => rfl
    | cons c cs =>
      simp only [containsPlaceholderMatch, Bool.or_eq_false_iff] at h
      obtain ⟨h1, h2⟩ := h
      cases hl : placeholderAt (c :: cs) with
      | some r => rw [hl] at h1; simp at h1
      | none => simp only [replacePlaceholdersGo, hl]; rw [ih cs h2]

/-- C9: the normalizer is total (it is a Lean function, defined on every
string) and is the identity on every string containing no match of the
link regex, no emphasis marker `**`, `__` or backquote, and no
curly-braced placeholder token; identity immediately gives idempotence on
such strings. -/
theorem c9_normalize_identity_on_plain (s : String)
    (h1 : containsLinkMatch s.data = false)
    (h2 : containsEmphMatch s.data = false)
    (h3 : containsPlaceholderMatch s.data = false) :
    normalize s = s := by
  unfold normalize replaceLinks replaceEmph replacePlaceholders
  rw [replaceLinksGo_id _ _ h1, replaceEmphGo_id _ _ h2, replacePlaceholdersGo_id _ _ h3]

/-- Witness for C9 at the concrete string "hello world". -/
theorem c9_witness :
    containsLinkMatch "hello world".data = false ∧
    containsEmphMatch "hello world".data = false ∧
    containsPlaceholderMatch "hello world".data = false ∧
    normalize "hello world" = "hello world" :=
  ⟨by decide, by decide, by decide,
    c9_normalize_identity_on_plain "hello world" (by decide) (by decide) (by decide)⟩

/-- The state-passing loop of `caseSwitchRate`: `lastIsUpper` is the
classification of the previous alphabetic character (none before the
first), `switches` and `alpha` the counters. -/
def caseSwitchGo : Option Bool → ℕ → ℕ → List Char → ℕ × ℕ
  | _, switches, alpha, [] => (switches, alpha)
  | lastIsUpper, switches, alpha, c :: cs =>
    if c.isAlpha then
      let cur : Bool := c == c.toUpper
      match lastIsUpper with
      | some l =>
        caseSwitchGo (some cur) (if cur != l then switches + 1 else switches) (alpha + 1) cs
      | none => caseSwitchGo (some cur) switches (alpha + 1) cs
    else caseSwitchGo lastIsUpper switches alpha cs

/-- `caseSwitchRate` of extension.ts: `alpha ? switches / alpha : 0`. -/
def caseSwitchRate (s : String) : ℚ :=
  let p := caseSwitchGo none 0 0 s.data
  if p.2 ≠ 0 then (p.1 : ℚ) / p.2 else 0

/-- Classification used by `caseSwitchRate`: whether a character equals its
own upper-casing. -/
def upperClass (c : Char) : Bool := c == c.toUpper

/-- Number of case switches in the chain starting from classification `u`
followed by the characters of the list. -/
def dpFrom (u : Bool) : List Char → ℕ
  | [] => 0
  | c :: cs => (if upperClass c != u then 1 else 0) + dpFrom (upperClass c) cs

/-- Number of adjacent pairs in the list whose case classification
differs. -/
def diffPairs : List Char → ℕ
  | [] => 0
  | c :: cs => dpFrom (upperClass c) cs

/-- The subsequence of alphabetic characters of a string. -/
def alphaChars (s : String) : List Char := s.data.filter Char.isAlpha

/-- The case-switch rate as claim C4 words it: switches divided by the
number of adjacent alphabetic pairs (which is `alpha - 1`), rather than by
the number of alphabetic characters. -/
def caseSwitchRateClaim (s : String) : ℚ :=
  if 2 ≤ (alphaChars s).length then
    (diffPairs (alphaChars s) : ℚ) / ((alphaChars s).length - 1 : ℕ)
  else 0

lemma caseSwitchGo_some (l : List Char) :
    ∀ (u : Bool) (sw al : ℕ),
      caseSwitchGo (some u) sw al l =
        (sw + dpFrom u (l.filter Char.isAlpha), al + (l.filter Char.isAlpha).length) := by
  induction l with
  | nil => intro u sw al; simp [caseSwitchGo, dpFrom]
  | cons c cs ih =>
    intro u sw al
    by_cases hc : c.isAlpha
    · simp only [caseSwitchGo, hc, if_pos, List.filter_cons_of_pos hc]
      rw [ih (c == c.toUpper)]
      simp only [dpFrom, List.length_cons, upperClass, Prod.mk.injEq]
      constructor
      · rcases Bool.eq_false_or_eq_true ((c == c.toUpper) != u) with hcu | hcu <;>
          (simp [hcu]; try omega)
      · omega
    · simp only [caseSwitchGo, hc]
      rw [List.filter_cons_of_neg (by simp [hc])]
      exact ih u sw al

lemma caseSwitchGo_none (l : List Char) :
    ∀ sw al : ℕ,
      caseSwitchGo none sw al l =
        (sw + diffPairs (l.filter Char.isAlpha), al + (l.filter Char.isAlpha).length) := by
  induction l with
  | nil => intro sw al; simp [caseSwitchGo, diffPairs]
  | cons c cs ih =>
    intro sw al
    by_cases hc : c.isAlpha
    · simp only [caseSwitchGo, hc, if_pos, List.filter_cons_of_pos hc]
      rw [caseSwitchGo_some cs (c == c.toUpper)]
      simp [diffPairs, upperClass]
      omega
    · simp only [caseSwitchGo, hc]
      rw [List.filter_cons_of_neg (by simp [hc])]
      exact ih sw al

/-- C4 (amended): for every string, the case-switch rate equals the number
of adjacent alphabetic pairs with differing case classification divided by
the number of ALPHABETIC CHARACTERS (not pairs), and 0 when there is no
alphabetic character. -/
theorem c4_amended_case_switch_rate (s : String) :
    caseSwitchRate s =
      if alphaChars s = [] then 0
      else (diffPairs (alphaChars s) : ℚ) / (alphaChars s).length := by
  unfold caseSwitchRate alphaChars
  rw [caseSwitchGo_none]
  simp only [Nat.zero_add]
  by_cases h : s.data.filter Char.isAlpha = []
  · simp [h, diffPairs]
  · have hlen : (s.data.filter Char.isAlpha).length ≠ 0 := by
      simpa [List.length_eq_zero] using h
    simp [h, hlen]

/-- Counterexample to C4 as stated: on "aB" the code returns 1/2 (it
divides by the number of alphabetic characters, 2), not the claimed 1.0
(the number of adjacent alphabetic pairs, 1). -/
theorem c4_counterexample :
    caseSwitchRate "aB" = 1/2 ∧ caseSwitchRateClaim "aB" = 1 ∧
      caseSwitchRate "aB" ≠ caseSwitchRateClaim "aB" := by
  have h1 : caseSwitchGo none 0 0 "aB".data = (1, 2) := by decide
  have h2 : diffPairs (alphaChars "aB") = 1 := by decide
  have h3 : (alphaChars "aB").length = 2 := by decide
  have e1 : caseSwitchRate "aB" = 1/2 := by
    simp only [caseSwitchRate, h1]
    norm_num
  have e2 : caseSwitchRateClaim "aB" = 1 := by
    simp only [caseSwitchRateClaim, h2, h3]
    norm_num
  exact ⟨e1, e2, by rw [e1, e2]; norm_num⟩

/-- Encoding of one maximal run in `simpleCompressLen`: the character, then
the decimal run length when the run is longer than 1. -/
def encodeRun (last : Char) (count : ℕ) : String :=
  String.mk [last] ++ (if 1 < count then Nat.repr count else "")

/-- The accumulation loop of `simpleCompressLen`; returns the length of the
output string `out` after flushing the pending run. -/
def compressGo (last : Char) (count : ℕ) (out : String) : List Char → ℕ
  | [] => (out ++ encodeRun last count).length
  | c :: cs =>
    if c = last then compressGo last (count + 1) out cs
    else compressGo c 1 (out ++ encodeRun last count) cs

/-- `simpleCompressLen` of extension.ts: length of the run-length encoding
of the string (0 for the empty string). -/
def simpleCompressLen (s : String) : ℕ :=
  match s.data with
  | [] => 0
  | c :: cs => compressGo c 1 "" cs

/-- The compression-ratio metric as computed at lines 94-95 of
extension.ts: encoded length over original length, 0 for the empty
string. -/
def compressionRatioOf (s : String) : ℚ :=
  if s.data.length ≠ 0 then (simpleCompressLen s : ℚ) / s.data.length else 0

/-- Counterexample to C3 as stated: the 10-character string "aaaaaaaaaa"
encodes to "a10", which is 3 characters (ratio 0.3), not the claimed 2
characters (ratio 0.2): the run length 10 takes two decimal digits. -/
theorem c3_counterexample :
    simpleCompressLen "aaaaaaaaaa" = 3 ∧ simpleCompressLen "aaaaaaaaaa" ≠ 2 ∧
      compressionRatioOf "aaaaaaaaaa" ≠ 1/5 := by
  have ha : simpleCompressLen "aaaaaaaaaa" = 3 := by decide
  have hla : "aaaaaaaaaa".data.length = 10 := by decide
  refine ⟨ha, by decide, ?_⟩
  simp only [compressionRatioOf, ha, hla]
  norm_num

/-- C3 (amended): run-length encoding writes each maximal run as the
character followed by the decimal run length when the run exceeds 1;
"aaaaaaaaaa" compresses to 3 characters (ratio 0.3), "abcdefghij" stays at
10 characters (ratio 1.0), the former ratio is less than the latter, and
the empty string has ratio 0. -/
theorem c3_amended_compression :
    simpleCompressLen "aaaaaaaaaa" = 3 ∧ compressionRatioOf "aaaaaaaaaa" = 3/10 ∧
      simpleCompressLen "abcdefghij" = 10 ∧ compressionRatioOf "abcdefghij" = 1 ∧
      compressionRatioOf "aaaaaaaaaa" < compressionRatioOf "abcdefghij" ∧
      compressionRatioOf "" = 0 := by
  have ha : simpleCompressLen "aaaaaaaaaa" = 3 := by decide
  have hb : simpleCompressLen "abcdefghij" = 10 := by decide
  have hla : "aaaaaaaaaa".data.length = 10 := by decide
  have hlb : "abcdefghij".data.length = 10 := by decide
  have h0 : "".data.length = 0 := by decide
  have ea : compressionRatioOf "aaaaaaaaaa" = 3/10 := by
    simp only [compressionRatioOf, ha, hla]
    norm_num
  have eb : compressionRatioOf "abcdefghij" = 1 := by
    simp only [compressionRatioOf, hb, hlb]
    norm_num
  refine ⟨ha, ea, hb, eb, ?_, ?_⟩
  · rw [ea, eb]; norm_num
  · simp [compressionRatioOf, h0]

/-- Case-insensitive literal match of `pat` at the head of `l`; returns the
rest after the match. -/
def matchInsensitive : List Char → List Char → Option (List Char)
  | [], l => some l
  | _ :: _, [] => none
  | p :: ps, c :: cs => if c.toLower = p then matchInsensitive ps cs else none

/-- The ordinal-word alternatives of the step regex, in alternation order. -/
def ordinalWords : List (List Char) :=
  ["first", "second", "third", "fourth", "fifth",
   "sixth", "seventh", "eighth", "ninth", "tenth"].map String.data

/-- One attempted match of the first alternative `step\s*\d+` (case
insensitive) at the head of the list. -/
def stepNumAt (l : List Char) : Option (List Char) :=
  match matchInsensitive "step".data l with
  | some r =>
    let r2 := r.dropWhile isJsSpace
    let ds := r2.takeWhile Char.isDigit
    if ds.isEmpty then none else some (r2.dropWhile Char.isDigit)
  | none => none

/-- First ordinal word (in alternation order) matching at the head of the
list. -/
def firstOrdinalAt : List (List Char) → List Char → Option (List Char)
  | [], _ => none
  | w :: ws, l =>
    match matchInsensitive w l with
    | some r => some r
    | none => firstOrdinalAt ws l

/-- One attempted match of the step regex
`(step\s*\d+|first|...|tenth)` (flags `gi`) at the head of the list. -/
def stepAt (l : List Char) : Option (List Char) :=
  match stepNumAt l with
  | some r => some r
  | none => firstOrdinalAt ordinalWords l

/-- The global scan of `countSteps`, counting non-overlapping matches left
to right. -/
def countStepsGo : ℕ → List Char → ℕ
  | 0, _ => 0
  | _ + 1, [] => 0
  | fuel + 1, c :: cs =>
    match stepAt (c :: cs) with
    | some r => 1 + countStepsGo fuel r
    | none => countStepsGo fuel cs

/-- `countSteps` of extension.ts. -/
def countSteps (s : String) : ℕ := countStepsGo s.data.length s.data

/-- The token scan `norm.match(/\w+/g)`: maximal runs of word
characters. -/
def tokensGo : ℕ → List Char → List (List Char)
  | 0, _ => []
  | _ + 1, [] => []
  | fuel + 1, c :: cs =>
    if isWordChar c then
      ((c :: cs).takeWhile isWordChar) :: tokensGo fuel ((c :: cs).dropWhile isWordChar)
    else tokensGo fuel cs

/-- The word-token list of a normalized line. -/
def tokensOf (l : List Char) : List (List Char) := tokensGo l.length l

/-- Test of `HEADING_RE` (regex `^\s{0,3}#`): up to `k` leading whitespace
characters, then `#`. -/
def headingGo : ℕ → List Char → Bool
  | _, [] => false
  | k, c :: cs => if c = '#' then true else if isJsSpace c && k != 0 then headingGo (k - 1) cs else false

/-- `HEADING_RE.test(raw)`: 0-3 leading whitespace characters then `#`. -/
def headingTest (s : String) : Bool := headingGo 3 s.data

/-- The heading pattern as claim C2 words it: 0-3 leading SPACE characters
(not arbitrary whitespace) then `#`. -/
def headingSpacesGo : ℕ → List Char → Bool
  | _, [] => false
  | k, c :: cs => if c = '#' then true else if c = ' ' && k != 0 then headingSpacesGo (k - 1) cs else false

/-- Heading test restricted to literal spaces, following the claim's
wording. -/
def headingSpacesOnly (s : String) : Bool := headingSpacesGo 3 s.data

/-- The severity labels of extension.ts (`'INFO' | 'WARN' | 'HIGH'`). -/
inductive Severity
  | INFO
  | WARN
  | HIGH
deriving DecidableEq

/-- The per-line record `LineData` of extension.ts.  `entropy` (and its
copy `mdlBitsPerChar`) is the Shannon entropy of the normalized line, a
real-valued quantity carried here as a rational parameter (see the header
comment); every other field is computed exactly. -/
structure LineData where
  raw : String
  norm : String
  entropy : ℚ
  avgTokenLen : ℚ
  uniqRatio : ℚ
  symbolDensity : ℚ
  caseSwitch : ℚ
  compressionRatio : ℚ
  mdlBitsPerChar : ℚ
  stepCount : ℕ
  periodicityBias : Bool
  issues : List String
  severity : Option Severity
  score : ℚ

/-- The record construction of `computeMetrics` (the `lines.map` body at
lines 84-109 of extension.ts) for the line with 0-based index `idx`. -/
def mkLineData (raw : String) (idx : ℕ) (entropy : ℚ) : LineData :=
  let norm := normalize raw
  let toks := tokensOf norm.data
  let tokenLens := toks.map List.length
  { raw := raw
    norm := norm
    entropy := entropy
    avgTokenLen := if tokenLens.length ≠ 0 then ((tokenLens.sum : ℚ) / tokenLens.length) else 0
    uniqRatio := if toks.length ≠ 0 then ((toks.dedup.length : ℚ) / toks.length) else 0
    symbolDensity :=
      if norm.data.length ≠ 0 then
        (((norm.data.filter fun c => !(isWordChar c || isJsSpace c)).length : ℚ) / norm.data.length)
      else 0
    caseSwitch := caseSwitchRate norm
    compressionRatio := compressionRatioOf norm
    mdlBitsPerChar := entropy
    stepCount := countSteps norm
    periodicityBias := decide ((idx + 1) % 64 = 0)
    issues := []
    severity := none
    score := 0 }

/-- The nine boolean flag conditions computed at lines 141-153 of
extension.ts, in source order. -/
structure FlagConfig where
  entropyHigh : Bool
  longTokens : Bool
  symbolNoise : Bool
  uniqHigh : Bool
  entropyJump : Bool
  compressHigh : Bool
  mdlHigh : Bool
  stepExcess : Bool
  periodicityFlag : Bool
deriving DecidableEq

/-- The `coreFlags` list of lines 155-161: names of firing core flags, in
source order. -/
def coreFlags (c : FlagConfig) : List String :=
  (if c.entropyHigh then ["entropy_high"] else []) ++
  (if c.longTokens then ["long_tokens"] else []) ++
  (if c.symbolNoise then ["symbol_noise"] else []) ++
  (if c.compressHigh then ["compress_high"] else []) ++
  (if c.mdlHigh then ["mdl_high"] else [])

/-- The `auxFlags` list of lines 162-167: names of firing auxiliary flags,
in source order. -/
def auxFlags (c : FlagConfig) : List String :=
  (if c.uniqHigh then ["uniq_high"] else []) ++
  (if c.entropyJump then ["entropy_jump"] else []) ++
  (if c.stepExcess then ["step_excess"] else []) ++
  (if c.periodicityFlag then ["periodicity_bias"] else [])

/-- The core weight object literal of line 176 (`{...}[f] || 0`): lookup by
name, defaulting to 0. -/
def coreWeightTable (f : String) : ℚ :=
  if f = "entropy_high" then 1
  else if f = "long_tokens" then 4/5
  else if f = "symbol_noise" then 3/5
  else if f = "compress_high" then 7/10
  else if f = "mdl_high" then 7/10
  else 0

/-- The auxiliary weight object literal of line 177, defaulting to 0. -/
def auxWeightTable (f : String) : ℚ :=
  if f = "uniq_high" then 2/5
  else if f = "entropy_jump" then 3/10
  else if f = "step_excess" then 3/10
  else if f = "periodicity_bias" then 1/5
  else 0

/-- The score computation of lines 176-177: the two `reduce` folds with
initial value 0 are the sums of the looked-up weights. -/
def lineScore (core aux : List String) : ℚ :=
  (core.map coreWeightTable).sum + (aux.map auxWeightTable).sum

/-- The severity assignment of lines 169-173: from the number of firing
CORE flags only. -/
def severityOf (numCore : ℕ) : Option Severity :=
  if 1 ≤ numCore then some (if 3 ≤ numCore then Severity.HIGH else Severity.WARN) else none

/-- The step-excess threshold `Math.ceil(Math.sqrt(tokenCount) *
Math.log2(10))` of line 152, modelled over the reals (`Math.sqrt` and
`Math.log2` are transcendental; no claim depends on this value). -/
noncomputable def stepLimit (tokenCount : ℕ) : ℕ :=
  ⌈Real.sqrt tokenCount * Real.logb 2 10⌉₊

/-- The nine threshold comparisons of lines 141-153, evaluated on a line
record and the previous line's record. -/
noncomputable def flagConfigOf (prev : Option LineData) (d : LineData) (tokenCount : ℕ) :
    FlagConfig where
  entropyHigh := decide ((43 : ℚ)/10 ≤ d.entropy)
  longTokens := decide ((11 : ℚ) ≤ d.avgTokenLen)
  symbolNoise := decide ((28 : ℚ)/100 ≤ d.symbolDensity)
  uniqHigh := decide (15 ≤ tokenCount) && decide ((98 : ℚ)/100 < d.uniqRatio)
  entropyJump :=
    match prev with
    | some p => decide (p.raw.trim ≠ "") && decide ((3 : ℚ)/2 < d.entropy - p.entropy)
    | none => false
  compressHigh := decide ((92 : ℚ)/100 ≤ d.compressionRatio)
  mdlHigh := decide ((43 : ℚ)/10 ≤ d.mdlBitsPerChar)
  stepExcess := decide (stepLimit tokenCount < d.stepCount)
  periodicityFlag := d.periodicityBias

/-- The per-line flagging pass (the `data.forEach` body, lines 135-179 of
extension.ts): exempt lines (fewer than 4 tokens, or a heading) are
returned unchanged; otherwise issues, score and severity are set. -/
noncomputable def flagLine (prev : Option LineData) (d : LineData) : LineData :=
  let tokenCount := (tokensOf d.norm.data).length
  if tokenCount < 4 ∨ headingTest d.raw = true then d
  else
    let cfg := flagConfigOf prev d tokenCount
    { d with issues := coreFlags cfg ++ auxFlags cfg
             score := lineScore (coreFlags cfg) (auxFlags cfg)
             severity := severityOf (coreFlags cfg).length }

/-- The editor-facing severity of a finding (`HIGH` maps to an error
diagnostic, anything else emitted maps to a warning diagnostic). -/
inductive DiagSeverity
  | Error
  | Warning
deriving DecidableEq

/-- Line 193 of extension.ts. -/
def diagSeverityOf (s : Severity) : DiagSeverity :=
  if s = Severity.HIGH then DiagSeverity.Error else DiagSeverity.Warning

/-- The emission filter of `publishDiagnostics` (lines 187-189): no
finding without a severity, none for `INFO`, and none for a `WARN`
severity with score below 1.0. -/
def emits (sev : Option Severity) (score : ℚ) : Bool :=
  match sev with
  | none => false
  | some s =>
    if s = Severity.INFO then false
    else if score < 1 ∧ s = Severity.WARN then false
    else true

lemma map_sum_flag_single (b : Bool) (x : String) (w : String → ℚ) :
    ((if b then [x] else []).map w).sum = (if b then w x else 0) := by
  cases b <;> simp

lemma length_flag_single {α : Type} (b : Bool) (x : α) :
    (if b then [x] else []).length = (if b then 1 else 0) := by
  cases b <;> simp

lemma cw_entropy_high : coreWeightTable "entropy_high" = 1 := by simp [coreWeightTable]

lemma cw_long_tokens : coreWeightTable "long_tokens" = 4/5 := by simp [coreWeightTable]

lemma cw_symbol_noise : coreWeightTable "symbol_noise" = 3/5 := by simp [coreWeightTable]

lemma cw_compress_high : coreWeightTable "compress_high" = 7/10 := by simp [coreWeightTable]

lemma cw_mdl_high : coreWeightTable "mdl_high" = 7/10 := by simp [coreWeightTable]

lemma aw_uniq_high : auxWeightTable "uniq_high" = 2/5 := by simp [auxWeightTable]

lemma aw_entropy_jump : auxWeightTable "entropy_jump" = 3/10 := by simp [auxWeightTable]

lemma aw_step_excess : auxWeightTable "step_excess" = 3/10 := by simp [auxWeightTable]

lemma aw_periodicity_bias : auxWeightTable "periodicity_bias" = 1/5 := by simp [auxWeightTable]

/-- Evaluation of the weighted score of a flag configuration as the sum of
one weighted indicator per flag. -/
lemma lineScore_eq (c : FlagConfig) :
    lineScore (coreFlags c) (auxFlags c) =
      (if c.entropyHigh then (1 : ℚ) else 0) + (if c.longTokens then 4/5 else 0) +
      (if c.symbolNoise then 3/5 else 0) + (if c.compressHigh then 7/10 else 0) +
      (if c.mdlHigh then 7/10 else 0) + (if c.uniqHigh then 2/5 else 0) +
      (if c.entropyJump then 3/10 else 0) + (if c.stepExcess then 3/10 else 0) +
      (if c.periodicityFlag then 1/5 else 0) := by
  simp only [lineScore, coreFlags, auxFlags, List.map_append, List.sum_append,
    map_sum_flag_single, cw_entropy_high, cw_long_tokens, cw_symbol_noise,
    cw_compress_high, cw_mdl_high, aw_uniq_high, aw_entropy_jump, aw_step_excess,
    aw_periodicity_bias]
  ring

/-- Characterization of the severity assignment of lines 169-173. -/
lemma severityOf_spec (n : ℕ) :
    (severityOf n = none ↔ n = 0) ∧
    (severityOf n = some Severity.WARN ↔ 1 ≤ n ∧ n < 3) ∧
    (severityOf n = some Severity.HIGH ↔ 3 ≤ n) := by
  unfold severityOf
  split_ifs with h1 h2 <;> simp_all <;> omega

/-- C1 (amended): severity is determined by the number of firing CORE
flags alone — absent exactly when no core flag fires, warning exactly when
1 or 2 core flags fire, high exactly when at least 3 core flags fire;
auxiliary flags do not contribute to severity. -/
theorem c1_amended_severity_from_core_count (c : FlagConfig) :
    (severityOf (coreFlags c).length = none ↔ (coreFlags c).length = 0) ∧
    (severityOf (coreFlags c).length = some Severity.WARN ↔
      1 ≤ (coreFlags c).length ∧ (coreFlags c).length < 3) ∧
    (severityOf (coreFlags c).length = some Severity.HIGH ↔ 3 ≤ (coreFlags c).length) :=
  severityOf_spec (coreFlags c).length

/-- C6: the score is the weighted sum of the firing flags with the fixed
weights (entropy_high 1, long_tokens 0.8, symbol_noise 0.6, compress_high
0.7, mdl_high 0.7, uniq_high 0.4, entropy_jump 0.3, step_excess 0.3,
periodicity_bias 0.2), and any flag name outside the weight tables
contributes 0. -/
theorem c6_score_weighted_sum :
    (∀ c : FlagConfig,
      lineScore (coreFlags c) (auxFlags c) =
        (if c.entropyHigh then (1 : ℚ) else 0) + (if c.longTokens then 4/5 else 0) +
        (if c.symbolNoise then 3/5 else 0) + (if c.compressHigh then 7/10 else 0) +
        (if c.mdlHigh then 7/10 else 0) + (if c.uniqHigh then 2/5 else 0) +
        (if c.entropyJump then 3/10 else 0) + (if c.stepExcess then 3/10 else 0) +
        (if c.periodicityFlag then 1/5 else 0)) ∧
    (∀ f : String,
      f ∉ ["entropy_high", "long_tokens", "symbol_noise", "compress_high", "mdl_high"] →
        coreWeightTable f = 0) ∧
    (∀ f : String,
      f ∉ ["uniq_high", "entropy_jump", "step_excess", "periodicity_bias"] →
        auxWeightTable f = 0) := by
  refine ⟨lineScore_eq, ?_, ?_⟩
  · intro f h
    simp only [List.mem_cons, List.mem_singleton, not_or] at h
    obtain ⟨h1, h2, h3, h4, h5⟩ := h
    simp [coreWeightTable, h1, h2, h3, h4, h5]
  · intro f h
    simp only [List.mem_cons, List.mem_singleton, not_or] at h
    obtain ⟨h1, h2, h3, h4⟩ := h
    simp [auxWeightTable, h1, h2, h3, h4]

/-- Witness for C6: the all-flags configuration, and the unknown flag name
"forced_test_flag" (present in the message table of extension.ts but in
neither weight table) contributing 0. -/
theorem c6_witness :
    lineScore (coreFlags ⟨true, true, true, true, true, true, true, true, true⟩)
        (auxFlags ⟨true, true, true, true, true, true, true, true, true⟩) =
      (if true then (1 : ℚ) else 0) + (if true then 4/5 else 0) +
      (if true then 3/5 else 0) + (if true then 7/10 else 0) +
      (if true then 7/10 else 0) + (if true then 2/5 else 0) +
      (if true then 3/10 else 0) + (if true then 3/10 else 0) +
      (if true then 1/5 else 0) ∧
    coreWeightTable "forced_test_flag" = 0 ∧ auxWeightTable "forced_test_flag" = 0 :=
  ⟨c6_score_weighted_sum.1 ⟨true, true, true, true, true, true, true, true, true⟩,
   c6_score_weighted_sum.2.1 "forced_test_flag" (by decide),
   c6_score_weighted_sum.2.2 "forced_test_flag" (by decide)⟩

/-- C5: a warning-severity line is emitted exactly when its score reaches
1.0, a high-severity line is always emitted, a line with no severity never
is; in particular the configuration firing only the `long_tokens` core
flag has severity warning and score 0.8 and is suppressed, while the same
core flag plus the `uniq_high` auxiliary flag gives score 1.2 and a
warning finding. -/
theorem c5_emission_filter :
    (∀ q : ℚ, emits (some Severity.WARN) q = true ↔ 1 ≤ q) ∧
    (∀ q : ℚ, emits (some Severity.HIGH) q = true) ∧
    (∀ q : ℚ, emits none q = false) ∧
    diagSeverityOf Severity.WARN = DiagSeverity.Warning ∧
    (severityOf (coreFlags ⟨false, true, false, false, false, false, false, false, false⟩).length =
        some Severity.WARN ∧
      lineScore (coreFlags ⟨false, true, false, false, false, false, false, false, false⟩)
          (auxFlags ⟨false, true, false, false, false, false, false, false, false⟩) = 4/5 ∧
      emits (some Severity.WARN)
          (lineScore (coreFlags ⟨false, true, false, false, false, false, false, false, false⟩)
            (auxFlags ⟨false, true, false, false, false, false, false, false, false⟩)) = false) ∧
    (severityOf (coreFlags ⟨false, true, false, true, false, false, false, false, false⟩).length =
        some Severity.WARN ∧
      lineScore (coreFlags ⟨false, true, false, true, false, false, false, false, false⟩)
          (auxFlags ⟨false, true, false, true, false, false, false, false, false⟩) = 6/5 ∧
      emits (some Severity.WARN)
          (lineScore (coreFlags ⟨false, true, false, true, false, false, false, false, false⟩)
            (auxFlags ⟨false, true, false, true, false, false, false, false, false⟩)) = true) := by
  have hwarn : ∀ q : ℚ, emits (some Severity.WARN) q = true ↔ 1 ≤ q := by
    intro q
    by_cases h : q < 1
    · simp [emits, h]
    · simp [emits, h]
      linarith
  have hs1 : lineScore (coreFlags ⟨false, true, false, false, false, false, false, false, false⟩)
      (auxFlags ⟨false, true, false, false, false, false, false, false, false⟩) = 4/5 := by
    rw [lineScore_eq]
    norm_num
  have hs2 : lineScore (coreFlags ⟨false, true, false, true, false, false, false, false, false⟩)
      (auxFlags ⟨false, true, false, true, false, false, false, false, false⟩) = 6/5 := by
    rw [lineScore_eq]
    norm_num
  refine ⟨hwarn, fun q => by simp [emits], fun q => rfl, rfl, ⟨rfl, hs1, ?_⟩, ⟨rfl, hs2, ?_⟩⟩
  · rw [hs1]
    simp [emits]
    norm_num
  · rw [hs2]
    rw [hwarn]
    norm_num

/-- C8: the positional-bias flag of a line record is true exactly when the
1-based position `idx + 1` is a multiple of 64, for every line content and
entropy value; the flag evaluator copies that metric unchanged into the
periodicity flag condition. -/
theorem c8_positional_bias :
    (∀ (raw : String) (idx : ℕ) (e : ℚ),
      (mkLineData raw idx e).periodicityBias = true ↔ 64 ∣ (idx + 1)) ∧
    (∀ (prev : Option LineData) (d : LineData) (n : ℕ),
      (flagConfigOf prev d n).periodicityFlag = d.periodicityBias) := by
  constructor
  · intro raw idx e
    simp only [mkLineData, decide_eq_true_eq]
    omega
  · intro prev d n
    rfl

/-- Projection of the nine flag booleans by position, in score order. -/
def cfgField (c : FlagConfig) : Fin 9 → Bool
  | ⟨0, _⟩ => c.entropyHigh
  | ⟨1, _⟩ => c.longTokens
  | ⟨2, _⟩ => c.symbolNoise
  | ⟨3, _⟩ => c.compressHigh
  | ⟨4, _⟩ => c.mdlHigh
  | ⟨5, _⟩ => c.uniqHigh
  | ⟨6, _⟩ => c.entropyJump
  | ⟨7, _⟩ => c.stepExcess
  | ⟨8, _⟩ => c.periodicityFlag

/-- The per-flag weight by position, matching the two weight tables. -/
def cfgWeight : Fin 9 → ℚ
  | ⟨0, _⟩ => 1
  | ⟨1, _⟩ => 4/5
  | ⟨2, _⟩ => 3/5
  | ⟨3, _⟩ => 7/10
  | ⟨4, _⟩ => 7/10
  | ⟨5, _⟩ => 2/5
  | ⟨6, _⟩ => 3/10
  | ⟨7, _⟩ => 3/10
  | ⟨8, _⟩ => 1/5

/-- Flag-set inclusion between two flag configurations: every flag firing
in the first also fires in the second. -/
def SubConfig (c1 c2 : FlagConfig) : Prop :=
  ∀ i : Fin 9, cfgField c1 i = true → cfgField c2 i = true

instance (c1 c2 : FlagConfig) : Decidable (SubConfig c1 c2) :=
  inferInstanceAs (Decidable (∀ i : Fin 9, cfgField c1 i = true → cfgField c2 i = true))

lemma sum_univ_nine (f : Fin 9 → ℚ) :
    ∑ i, f i = f 0 + f 1 + f 2 + f 3 + f 4 + f 5 + f 6 + f 7 + f 8 := by
  rw [Fin.sum_univ_castSucc, Fin.sum_univ_eight]
  rfl

lemma lineScore_eq_finsum (c : FlagConfig) :
    lineScore (coreFlags c) (auxFlags c) =
      ∑ i : Fin 9, (if cfgField c i then cfgWeight i else 0) := by
  rw [lineScore_eq, sum_univ_nine]
  rfl

lemma cfgWeight_pos (i : Fin 9) : 0 < cfgWeight i := by
  fin_cases i <;> norm_num [cfgWeight]

lemma configScore_nonneg (c : FlagConfig) : 0 ≤ lineScore (coreFlags c) (auxFlags c) := by
  rw [lineScore_eq_finsum]
  apply Finset.sum_nonneg
  intro i _
  by_cases h : cfgField c i = true
  · simp only [h, if_true]
    exact (cfgWeight_pos i).le
  · simp [h]

lemma configScore_mono {c1 c2 : FlagConfig} (hsub : SubConfig c1 c2) :
    lineScore (coreFlags c1) (auxFlags c1) ≤ lineScore (coreFlags c2) (auxFlags c2) := by
  rw [lineScore_eq_finsum, lineScore_eq_finsum]
  apply Finset.sum_le_sum
  intro i _
  by_cases h1 : cfgField c1 i = true
  · rw [if_pos h1, if_pos (hsub i h1)]
  · rw [if_neg h1]
    by_cases h2 : cfgField c2 i = true
    · rw [if_pos h2]
      exact (cfgWeight_pos i).le
    · rw [if_neg h2]

lemma cfgField_ext {c1 c2 : FlagConfig} (h : ∀ i : Fin 9, cfgField c1 i = cfgField c2 i) :
    c1 = c2 := by
  rcases c1 with ⟨a1, a2, a3, a4, a5, a6, a7, a8, a9⟩
  rcases c2 with ⟨b1, b2, b3, b4, b5, b6, b7, b8, b9⟩
  have e1 : a1 = b1 := h 0
  have e2 : a2 = b2 := h 1
  have e3 : a3 = b3 := h 2
  have e4 : a4 = b4 := h 5
  have e5 : a5 = b5 := h 6
  have e6 : a6 = b6 := h 3
  have e7 : a7 = b7 := h 4
  have e8 : a8 = b8 := h 7
  have e9 : a9 = b9 := h 8
  subst e1 e2 e3 e4 e5 e6 e7 e8 e9
  rfl

/-- C7: every line score (of the record-construction/flagging pipeline) is
non-negative, and the score is monotone in the flag set under inclusion:
a configuration firing a subset of flags scores at most as much, and
strictly less when the inclusion is proper (every flag is one of the nine
named ones, all with positive weight). -/
theorem c7_score_nonneg_monotone :
    (∀ (raw : String) (idx : ℕ) (e : ℚ) (prev : Option LineData),
        0 ≤ (flagLine prev (mkLineData raw idx e)).score) ∧
    (∀ c1 c2 : FlagConfig, SubConfig c1 c2 →
        lineScore (coreFlags c1) (auxFlags c1) ≤ lineScore (coreFlags c2) (auxFlags c2)) ∧
    (∀ c1 c2 : FlagConfig, SubConfig c1 c2 → c1 ≠ c2 →
        lineScore (coreFlags c1) (auxFlags c1) < lineScore (coreFlags c2) (auxFlags c2)) := by
  refine ⟨?_, fun c1 c2 hsub => configScore_mono hsub, ?_⟩
  · intro raw idx e prev
    simp only [flagLine]
    split
    · exact le_rfl
    · exact configScore_nonneg _
  · intro c1 c2 hsub hne
    have hex : ∃ i : Fin 9, cfgField c1 i = false ∧ cfgField c2 i = true := by
      by_contra hco
      push_neg at hco
      apply hne
      apply cfgField_ext
      intro i
      by_cases h1 : cfgField c1 i = true
      · rw [h1, hsub i h1]
      · have hb1 : cfgField c1 i = false := by simpa using h1
        have hb2 := hco i hb1
        rw [hb1]
        simpa using hb2.symm
    obtain ⟨i, hi1, hi2⟩ := hex
    rw [lineScore_eq_finsum, lineScore_eq_finsum]
    apply Finset.sum_lt_sum
    · intro j _
      by_cases h1 : cfgField c1 j = true
      · rw [if_pos h1, if_pos (hsub j h1)]
      · rw [if_neg h1]
        by_cases h2 : cfgField c2 j = true
        · rw [if_pos h2]
          exact (cfgWeight_pos j).le
        · rw [if_neg h2]
    · refine ⟨i, Finset.mem_univ i, ?_⟩
      simp only [hi1, hi2, if_true]
      simpa using cfgWeight_pos i

/-- Witness for C7: the empty configuration is a proper subset of the
configuration firing only entropy_high. -/
theorem c7_witness :
    0 ≤ (flagLine none (mkLineData "plain witness line here" 0 0)).score ∧
    lineScore (coreFlags ⟨false, false, false, false, false, false, false, false, false⟩)
        (auxFlags ⟨false, false, false, false, false, false, false, false, false⟩) ≤
      lineScore (coreFlags ⟨true, false, false, false, false, false, false, false, false⟩)
        (auxFlags ⟨true, false, false, false, false, false, false, false, false⟩) ∧
    lineScore (coreFlags ⟨false, false, false, false, false, false, false, false, false⟩)
        (auxFlags ⟨false, false, false, false, false, false, false, false, false⟩) <
      lineScore (coreFlags ⟨true, false, false, false, false, false, false, false, false⟩)
        (auxFlags ⟨true, false, false, false, false, false, false, false, false⟩) :=
  ⟨c7_score_nonneg_monotone.1 "plain witness line here" 0 0 none,
   c7_score_nonneg_monotone.2.1 _ _ (by decide),
   c7_score_nonneg_monotone.2.2 _ _ (by decide) (by decide)⟩

lemma mkLineData_raw (raw : String) (idx : ℕ) (e : ℚ) : (mkLineData raw idx e).raw = raw := rfl

lemma mkLineData_norm (raw : String) (idx : ℕ) (e : ℚ) :
    (mkLineData raw idx e).norm = normalize raw := rfl

lemma mkLineData_entropy (raw : String) (idx : ℕ) (e : ℚ) : (mkLineData raw idx e).entropy = e := rfl

lemma mkLineData_mdl (raw : String) (idx : ℕ) (e : ℚ) :
    (mkLineData raw idx e).mdlBitsPerChar = e := rfl

lemma mkLineData_issues (raw : String) (idx : ℕ) (e : ℚ) : (mkLineData raw idx e).issues = [] := rfl

lemma mkLineData_score (raw : String) (idx : ℕ) (e : ℚ) : (mkLineData raw idx e).score = 0 := rfl

lemma mkLineData_severity (raw : String) (idx : ℕ) (e : ℚ) :
    (mkLineData raw idx e).severity = none := rfl

/-- C2 (amended): a line of the pipeline is exempt from flagging — issues
empty, score 0, severity absent for EVERY entropy value — exactly when its
normalized text has fewer than 4 word-tokens or its raw text matches the
heading pattern of 0-3 leading WHITESPACE characters (spaces, tabs, ...)
followed by `#`. -/
theorem c2_amended_exemption (raw : String) (idx : ℕ) (prev : Option LineData) :
    (∀ e : ℚ,
      (flagLine prev (mkLineData raw idx e)).issues = [] ∧
      (flagLine prev (mkLineData raw idx e)).score = 0 ∧
      (flagLine prev (mkLineData raw idx e)).severity = none) ↔
    ((tokensOf (normalize raw).data).length < 4 ∨ headingTest raw = true) := by
  constructor
  · intro h
    by_contra hcond
    obtain ⟨h1, _, _⟩ := h 5
    have hEH : (flagConfigOf prev (mkLineData raw idx 5)
        ((tokensOf (mkLineData raw idx 5).norm.data).length)).entropyHigh = true := by
      simp only [flagConfigOf, mkLineData_entropy]
      exact decide_eq_true (by norm_num)
    rw [show (flagLine prev (mkLineData raw idx 5)).issues =
        coreFlags (flagConfigOf prev (mkLineData raw idx 5)
            ((tokensOf (mkLineData raw idx 5).norm.data).length)) ++
          auxFlags (flagConfigOf prev (mkLineData raw idx 5)
            ((tokensOf (mkLineData raw idx 5).norm.data).length)) from by
      simp only [flagLine, mkLineData_norm, mkLineData_raw]
      rw [if_neg hcond]] at h1
    rw [coreFlags] at h1
    rw [hEH] at h1
    simp at h1
  · intro hcond e
    have heq : flagLine prev (mkLineData raw idx e) = mkLineData raw idx e := by
      simp only [flagLine, mkLineData_norm, mkLineData_raw]
      rw [if_pos hcond]
    rw [heq, mkLineData_issues, mkLineData_score, mkLineData_severity]
    exact ⟨rfl, rfl, rfl⟩

/-- Counterexample to C2 as stated: the line with raw text
(tab)"# a b c d" has 4 word-tokens and does NOT match the claim's heading
pattern of 0-3 leading SPACES then `#`, so by the claim it should be
evaluated (and with entropy 5 the entropy_high flag would fire); but
`HEADING_RE` uses `\s`, which matches the tab, so the code exempts the
line and leaves it with no flags, score 0 and no severity. -/
theorem c2_counterexample :
    ¬ ((tokensOf (normalize "\t# a b c d").data).length < 4 ∨
        headingSpacesOnly "\t# a b c d" = true) ∧
    (flagLine none (mkLineData "\t# a b c d" 0 5)).issues = [] ∧
    (flagLine none (mkLineData "\t# a b c d" 0 5)).score = 0 ∧
    (flagLine none (mkLineData "\t# a b c d" 0 5)).severity = none := by
  have hcond : ((tokensOf (normalize "\t# a b c d").data).length < 4 ∨
      headingTest "\t# a b c d" = true) := by
    right
    decide
  have heq : flagLine none (mkLineData "\t# a b c d" 0 5) = mkLineData "\t# a b c d" 0 5 := by
    simp only [flagLine, mkLineData_norm, mkLineData_raw]
    rw [if_pos hcond]
  refine ⟨by decide, ?_, ?_, ?_⟩ <;> rw [heq] <;> rfl

/-- Counterexample to C1 as stated: for the line "aaaa bbbb cccc dddd" at
0-based index 63 (1-based position 64) with entropy 2, exactly one
auxiliary flag (periodicity_bias) fires and no core flag does, so
combinedWeight = 0 + 0.5 × 1 = 0.5 lies strictly between 0 and 3 and the
claim predicts severity warning; the code assigns severity from the core
count alone and leaves it absent. -/
theorem c1_counterexample :
    (flagLine none (mkLineData "aaaa bbbb cccc dddd" 63 2)).issues = ["periodicity_bias"] ∧
    (flagLine none (mkLineData "aaaa bbbb cccc dddd" 63 2)).score = 1/5 ∧
    (flagLine none (mkLineData "aaaa bbbb cccc dddd" 63 2)).severity = none ∧
    (flagLine none (mkLineData "aaaa bbbb cccc dddd" 63 2)).severity ≠ some Severity.WARN := by
  have hn : (tokensOf (mkLineData "aaaa bbbb cccc dddd" 63 2).norm.data).length = 4 := by decide
  have hcond : ¬((tokensOf (mkLineData "aaaa bbbb cccc dddd" 63 2).norm.data).length < 4 ∨
      headingTest (mkLineData "aaaa bbbb cccc dddd" 63 2).raw = true) := by decide
  have havg : (mkLineData "aaaa bbbb cccc dddd" 63 2).avgTokenLen = 4 := by
    have h1 : (tokensOf (normalize "aaaa bbbb cccc dddd").data).map List.length = [4, 4, 4, 4] := by
      decide
    simp only [mkLineData, h1]
    norm_num
  have hsym : (mkLineData "aaaa bbbb cccc dddd" 63 2).symbolDensity = 0 := by
    have h2 : (normalize "aaaa bbbb cccc dddd").data.filter
        (fun c => !(isWordChar c || isJsSpace c)) = [] := by decide
    have h3 : (normalize "aaaa bbbb cccc dddd").data.length = 19 := by decide
    simp only [mkLineData, h2, h3]
    norm_num
  have hcr : (mkLineData "aaaa bbbb cccc dddd" 63 2).compressionRatio = 11/19 := by
    have h4 : simpleCompressLen (normalize "aaaa bbbb cccc dddd") = 11 := by decide
    have h3 : (normalize "aaaa bbbb cccc dddd").data.length = 19 := by decide
    simp only [mkLineData, compressionRatioOf, h4, h3]
    norm_num
  have hcfg : flagConfigOf none (mkLineData "aaaa bbbb cccc dddd" 63 2)
      ((tokensOf (mkLineData "aaaa bbbb cccc dddd" 63 2).norm.data).length) =
      ⟨false, false, false, false, false, false, false, false, true⟩ := by
    rw [hn]
    unfold flagConfigOf
    congr 1
    · rw [mkLineData_entropy]
      exact decide_eq_false (by norm_num)
    · rw [havg]
      exact decide_eq_false (by norm_num)
    · rw [hsym]
      exact decide_eq_false (by norm_num)
    · rw [hcr]
      exact decide_eq_false (by norm_num)
    · rw [mkLineData_mdl]
      exact decide_eq_false (by norm_num)
  have hbase : flagLine none (mkLineData "aaaa bbbb cccc dddd" 63 2) =
      { mkLineData "aaaa bbbb cccc dddd" 63 2 with
        issues :=
          coreFlags ⟨false, false, false, false, false, false, false, false, true⟩ ++
            auxFlags ⟨false, false, false, false, false, false, false, false, true⟩
        score :=
          lineScore (coreFlags ⟨false, false, false, false, false, false, false, false, true⟩)
            (auxFlags ⟨false, false, false, false, false, false, false, false, true⟩)
        severity :=
          severityOf
            (coreFlags ⟨false, false, false, false, false, false, false, false, true⟩).length } := by
    simp only [flagLine]
    rw [if_neg hcond, hcfg]
  refine ⟨?_, ?_, ?_, ?_⟩
  · rw [hbase]
    decide
  · rw [hbase]
    show lineScore (coreFlags ⟨false, false, false, false, false, false, false, false, true⟩)
        (auxFlags ⟨false, false, false, false, false, false, false, false, true⟩) = 1/5
    rw [lineScore_eq]
    norm_num
  · rw [hbase]
    rfl
  · rw [hbase]
    show severityOf
        (coreFlags ⟨false, false, false, false, false, false, false, false, true⟩).length ≠
      some Severity.WARN
    simp [severityOf, coreFlags]

/-- C10: the case-switch metric, though computed and stored on every line
record, is never read by the flag evaluator, score aggregator or severity
assignment: changing only the `caseSwitch` field of a record leaves the
computed flags, score and severity unchanged. -/
theorem c10_case_switch_independence (prev : Option LineData) (d : LineData) (v : ℚ) :
    (flagLine prev { d with caseSwitch := v }).issues = (flagLine prev d).issues ∧
    (flagLine prev { d with caseSwitch := v }).score = (flagLine prev d).score ∧
    (flagLine prev { d with caseSwitch := v }).severity = (flagLine prev d).severity := by
  simp only [flagLine]
  split_ifs with h
  · exact ⟨rfl, rfl, rfl⟩
  · exact ⟨rfl, rfl, rfl⟩

end PromptAnalyzer
